import Mathlib

/-!
Shallow embedding of the TestAIgnite enrichment-and-aggregation pipeline.

The definitions below are translated from the repository's JavaScript
sources:
- `src/scripts/ai/enrichResults.js` (insight validator, inference invoker,
  fallback insight, candidate extraction, fragment renaming),
- `src/scripts/report/renderHtmlReport.js` (fragment statistics merge).

JavaScript values parsed from JSON are modelled by the inductive `JVal`
(JSON numbers are finite decimals, hence rationals).  Fallible JavaScript
code (thrown exceptions) is modelled with `Except String`.
-/

/-- Model of a JSON value as produced by `JSON.parse`. -/
inductive JVal : Type where
  | jstr  : String → JVal
  | jnum  : ℚ → JVal
  | jbool : Bool → JVal
  | jnull : JVal
  | jarr  : List JVal → JVal
  | jobj  : List (String × JVal) → JVal

mutual

/-- Decidable equality on `JVal` (written by hand because the automatic
derivation does not support nested inductives). -/
def jvalDecEq : (a b : JVal) → Decidable (a = b)
  | .jstr x, .jstr y =>
    if h : x = y then .isTrue (by rw [h]) else .isFalse (fun hc => h (by cases hc; rfl))
  | .jstr _, .jnum _ => .isFalse nofun
  | .jstr _, .jbool _ => .isFalse nofun
  | .jstr _, .jnull => .isFalse nofun
  | .jstr _, .jarr _ => .isFalse nofun
  | .jstr _, .jobj _ => .isFalse nofun
  | .jnum _, .jstr _ => .isFalse nofun
  | .jnum x, .jnum y =>
    if h : x = y then .isTrue (by rw [h]) else .isFalse (fun hc => h (by cases hc; rfl))
  | .jnum _, .jbool _ => .isFalse nofun
  | .jnum _, .jnull => .isFalse nofun
  | .jnum _, .jarr _ => .isFalse nofun
  | .jnum _, .jobj _ => .isFalse nofun
  | .jbool _, .jstr _ => .isFalse nofun
  | .jbool _, .jnum _ => .isFalse nofun
  | .jbool x, .jbool y =>
    if h : x = y then .isTrue (by rw [h]) else .isFalse (fun hc => h (by cases hc; rfl))
  | .jbool _, .jnull => .isFalse nofun
  | .jbool _, .jarr _ => .isFalse nofun
  | .jbool _, .jobj _ => .isFalse nofun
  | .jnull, .jstr _ => .isFalse nofun
  | .jnull, .jnum _ => .isFalse nofun
  | .jnull, .jbool _ => .isFalse nofun
  | .jnull, .jnull => .isTrue rfl
  | .jnull, .jarr _ => .isFalse nofun
  | .jnull, .jobj _ => .isFalse nofun
  | .jarr _, .jstr _ => .isFalse nofun
  | .jarr _, .jnum _ => .isFalse nofun
  | .jarr _, .jbool _ => .isFalse nofun
  | .jarr _, .jnull => .isFalse nofun
  | .jarr x, .jarr y =>
    match jvalListDecEq x y with
    | .isTrue h => .isTrue (by rw [h])
    | .isFalse h => .isFalse (fun hc => h (by cases hc; rfl))
  | .jarr _, .jobj _ => .isFalse nofun
  | .jobj _, .jstr _ => .isFalse nofun
  | .jobj _, .jnum _ => .isFalse nofun
  | .jobj _, .jbool _ => .isFalse nofun
  | .jobj _, .jnull => .isFalse nofun
  | .jobj _, .jarr _ => .isFalse nofun
  | .jobj x, .jobj y =>
    match jvalKListDecEq x y with
    | .isTrue h => .isTrue (by rw [h])
    | .isFalse h => .isFalse (fun hc => h (by cases hc; rfl))

/-- Decidable equality on lists of JSON values. -/
def jvalListDecEq : (a b : List JVal) → Decidable (a = b)
  | [], [] => .isTrue rfl
  | [], _ :: _ => .isFalse nofun
  | _ :: _, [] => .isFalse nofun
  | x :: xs, y :: ys =>
    match jvalDecEq x y with
    | .isFalse h1 => .isFalse (fun hc => h1 (by cases hc; rfl))
    | .isTrue h1 =>
      match jvalListDecEq xs ys with
      | .isTrue h2 => .isTrue (by rw [h1, h2])
      | .isFalse h2 => .isFalse (fun hc => h2 (by cases hc; rfl))

/-- Decidable equality on JSON object member lists. -/
def jvalKListDecEq : (a b : List (String × JVal)) → Decidable (a = b)
  | [], [] => .isTrue rfl
  | [], _ :: _ => .isFalse nofun
  | _ :: _, [] => .isFalse nofun
  | (k1, v1) :: xs, (k2, v2) :: ys =>
    if hk : k1 = k2 then
      match jvalDecEq v1 v2 with
      | .isFalse h1 => .isFalse (fun hc => h1 (by cases hc; rfl))
      | .isTrue h1 =>
        match jvalKListDecEq xs ys with
        | .isTrue h2 => .isTrue (by rw [hk, h1, h2])
        | .isFalse h2 => .isFalse (fun hc => h2 (by cases hc; rfl))
    else .isFalse (fun hc => hk (by cases hc; rfl))

end

instance : DecidableEq JVal := jvalDecEq

/-- JavaScript truthiness of a JSON value. -/
def jsTruthy : JVal → Bool
  | .jstr s  => !(s = "")
  | .jnum q  => !(q = 0)
  | .jbool b => b
  | .jnull   => false
  | .jarr _  => true
  | .jobj _  => true

/-- JavaScript truthiness of a possibly-undefined JSON value. -/
def jsTruthyO : Option JVal → Bool
  | none => false
  | some v => jsTruthy v

/-- JavaScript `a || b` for an optional string, where the empty string is
falsy. -/
def jsOrStr (o : Option String) (dflt : String) : String :=
  match o with
  | some s => if s = "" then dflt else s
  | none => dflt

/-- JavaScript string coercion of a possibly-undefined string (string
concatenation renders `undefined` as the text "undefined"). -/
def jsStringOrUndefined : Option String → String
  | none => "undefined"
  | some s => s

/-- Characters matched by the JavaScript regex class `\s` on the inputs
this pipeline handles. -/
def jsWs (c : Char) : Bool :=
  c = ' ' || c = '\t' || c = '\n' || c = '\r' || c = '\x0b' || c = '\x0c'

/-- Replaces every maximal whitespace run by a single space
(the regex replace `\s+` → " "). -/
def collapseWs : List Char → List Char
  | [] => []
  | c :: cs =>
    if jsWs c then ' ' :: collapseWs (cs.dropWhile jsWs)
    else c :: collapseWs cs
termination_by l => l.length
decreasing_by
  · have h := (List.dropWhile_suffix (l := cs) jsWs).length_le
    simp only [List.length_cons]
    omega
  · simp only [List.length_cons]
    omega

/-- Model of the source's `cleanText` on an actual string: collapse
whitespace and trim (`replace(/\n/g," ").replace(/\s+/g," ").trim()`). -/
def cleanText (s : String) : String :=
  ⟨((collapseWs s.data).dropWhile jsWs).reverse.dropWhile jsWs |>.reverse⟩

/-- Model of `cleanText` applied to an arbitrary field value: a falsy value
is coerced to `""` first; calling `.replace` on a truthy non-string throws
a `TypeError`. -/
def cleanTextE : Option JVal → Except String String
  | none => .ok ""
  | some v =>
    if jsTruthy v then
      match v with
      | .jstr s => .ok (cleanText s)
      | _ => .error "TypeError"
    else .ok ""

/-- Splits a character list at every occurrence of a separator character,
preserving empty pieces (JavaScript `String.split`). -/
def splitChar (sep : Char) : List Char → List (List Char)
  | [] => [[]]
  | c :: rest =>
    if c = sep then [] :: splitChar sep rest
    else
      match splitChar sep rest with
      | [] => [[c]]
      | w :: ws => (c :: w) :: ws

/-- Joins word pieces with single spaces (JavaScript `Array.join(" ")`). -/
def joinSpace : List (List Char) → List Char
  | [] => []
  | [w] => w
  | w :: ws => w ++ ' ' :: joinSpace ws

/-- Suffix test on character lists (JavaScript `String.endsWith`). -/
def endsWithL (l suf : List Char) : Bool :=
  l.reverse.take suf.length == suf.reverse

/-- Strict-prefix-or-equal test on character lists
(JavaScript `String.startsWith`). -/
def startsWithL (pre l : List Char) : Bool :=
  l.take pre.length == pre

/-- Drops the last `n` characters of a string. -/
def strDropRight (s : String) (n : ℕ) : String :=
  ⟨s.data.take (s.data.length - n)⟩

/-- ASCII lowercasing of a string (JavaScript `String.toLowerCase` on the
ASCII inputs this pipeline handles). -/
def lowerStr (s : String) : String := ⟨s.data.map Char.toLower⟩

/-- Substring test on character lists (JavaScript `String.includes`). -/
def hasSubList (pat : List Char) : List Char → Bool
  | [] => pat == []
  | c :: rest => pat == (c :: rest).take pat.length || hasSubList pat rest

/-- JavaScript `s.includes(pat)`. -/
def containsSub (s pat : String) : Bool := hasSubList pat.data s.data

/-- The source's `deriveTags`: heuristic tag buckets matched by
case-insensitive substring presence on error text plus title, capped at
four tags. -/
def deriveTags (errorMsg fullTitle : String) : List String :=
  let text := lowerStr (errorMsg ++ " " ++ fullTitle)
  let t1 : List String :=
    if containsSub text "timeout" || containsSub text "waited" then ["timing"] else []
  let t2 : List String :=
    if containsSub text "get" || containsSub text "find" || containsSub text "contains" then
      ["selector"] else []
  let t3 : List String :=
    if containsSub text "401" || containsSub text "403" || containsSub text "login" then
      ["auth"] else []
  let t4 : List String :=
    if containsSub text "500" || containsSub text "fetch" || containsSub text "network" then
      ["network"] else []
  let t5 : List String :=
    if containsSub text "expect" || containsSub text "assert" then ["assertion"] else []
  (t1 ++ t2 ++ t3 ++ t4 ++ t5).take 4

/-- Error information attached to a failing test (`test.err`). -/
structure ErrInfo where
  message : Option String := none
  stack : Option String := none
  deriving DecidableEq

/-- The enrichment record attached to a failed test.  Every field is
optional, mirroring a JavaScript object: the validator populates all
fields except `modelUsed`, the invoker stamps `modelUsed`, and the
fallback record populates only five fields. -/
structure Insight where
  summary : Option String := none
  humanError : Option JVal := none
  testRootCause : Option JVal := none
  productRootCause : Option JVal := none
  bugEffect : Option JVal := none
  inferredExpected : Option JVal := none
  recommendation : Option String := none
  severity : Option String := none
  confidence : Option ℚ := none
  tags : Option (List JVal) := none
  modelUsed : Option String := none
  deriving DecidableEq

/-- A single test record from a report fragment. -/
structure Test where
  title : String
  fullTitle : Option String := none
  state : Option String := none
  fail : Bool := false
  duration : Option ℚ := none
  err : Option ErrInfo := none
  ai : Option Insight := none
  deriving DecidableEq

/-- The fields of the parsed model response that `validateAndSanitize`
reads (absent keys are `none`). -/
structure RawData where
  summary : Option JVal := none
  recommendation : Option JVal := none
  humanError : Option JVal := none
  testRootCause : Option JVal := none
  productRootCause : Option JVal := none
  bugEffect : Option JVal := none
  inferredExpected : Option JVal := none
  severity : Option JVal := none
  confidence : Option JVal := none
  tags : Option JVal := none
  deriving DecidableEq

/-- Contract enforcement on `summary`:
`cleanText(data.summary).split(" ").slice(0, 15).join(" ")`. -/
def summaryOf (v : Option JVal) : Except String String :=
  match cleanTextE v with
  | .error e => .error e
  | .ok c => .ok ⟨joinSpace ((splitChar ' ' c.data).take 15)⟩

/-- The generic remediation sentence appended to a short recommendation. -/
def padSentence : String :=
  " Please review the test logic and error stack for more details."

/-- Appends the generic remediation sentence when the cleaned
recommendation has fewer than 10 words. -/
def padShort (r0 : String) : String :=
  if (splitChar ' ' r0.data).length < 10 then r0 ++ padSentence else r0

/-- Replaces a trailing ellipsis by a period
(`recommendation.replace(/\.\.\.$/, ".")`). -/
def fixEllipsis (r1 : String) : String :=
  if endsWithL r1.data ['.', '.', '.'] then strDropRight r1 3 ++ "." else r1

/-- Contract enforcement on `recommendation`: clean the text, pad when
short, fix a trailing ellipsis. -/
def recommendationOf (v : Option JVal) : Except String String :=
  match cleanTextE v with
  | .error e => .error e
  | .ok r0 => .ok (fixEllipsis (padShort r0))

/-- JavaScript `x || dflt` on a field value, with a string default. -/
def jvalOr (v : Option JVal) (dflt : String) : JVal :=
  match v with
  | some w => if jsTruthy w then w else .jstr dflt
  | none => .jstr dflt

/-- The closed set of allowed severities. -/
def severityList : List String := ["low", "medium", "high", "critical"]

/-- Severity coercion:
`["low","medium","high","critical"].includes(data.severity?.toLowerCase())
? data.severity.toLowerCase() : "medium"`.  Optional chaining passes
`null`/`undefined` through, but calling `.toLowerCase()` on any other
non-string value throws a `TypeError`. -/
def severityE : Option JVal → Except String String
  | none => .ok "medium"
  | some .jnull => .ok "medium"
  | some (.jstr s) => .ok (if lowerStr s ∈ severityList then lowerStr s else "medium")
  | some _ => .error "TypeError"

/-- The severity value the validator produces when it returns: the
lowercased recognized string, otherwise the default "medium". -/
def severityDefaultOf (v : Option JVal) : String :=
  match v with
  | some (.jstr x) => if lowerStr x ∈ severityList then lowerStr x else "medium"
  | _ => "medium"

/-- Confidence coercion:
`typeof data.confidence === "number" ? Math.min(Math.max(c, 0), 1) : 0.5`. -/
def confidenceOf : Option JVal → ℚ
  | some (.jnum q) => min (max q 0) 1
  | _ => (1 : ℚ) / 2

/-- Tags coercion: keep at most 5 model-supplied tags when the field is a
non-empty array, otherwise derive tags from the original test's error
message and title. -/
def tagsOf (v : Option JVal) (errMsg fullTitle : String) : List JVal :=
  match v with
  | some (.jarr l) =>
    if l.length > 0 then l.take 5 else (deriveTags errMsg fullTitle).map .jstr
  | _ => (deriveTags errMsg fullTitle).map .jstr

/-- Field-level part of the source's `validateAndSanitize`, applied to the
parsed response object: repairs each field or throws, in the source's
evaluation order (summary, then recommendation, then — inside the returned
object literal — severity). -/
def validateFields (d : RawData) (t : Test) : Except String Insight :=
  match summaryOf d.summary with
  | .error e => .error e
  | .ok summary =>
  match recommendationOf d.recommendation with
  | .error e => .error e
  | .ok recommendation =>
  match severityE d.severity with
  | .error e => .error e
  | .ok severity =>
  .ok
    { summary := some (if summary = "" then "Investigate failure reason." else summary)
      humanError := some (jvalOr d.humanError "An error occurred during the test execution.")
      testRootCause :=
        some (jvalOr d.testRootCause "Assertion or selector failure detected in test code.")
      productRootCause :=
        some (jvalOr d.productRootCause "Possible defect in application logic or responsiveness.")
      bugEffect := some (jvalOr d.bugEffect "User flow is blocked or behavior is inconsistent.")
      inferredExpected :=
        some (jvalOr d.inferredExpected
          "The application should behave as defined in the test requirement.")
      recommendation := some recommendation
      severity := some severity
      confidence := some (confidenceOf d.confidence)
      tags := some (tagsOf d.tags (jsStringOrUndefined (t.err.bind ErrInfo.message)) t.title)
      modelUsed := none }

/-- JSON insignificant whitespace. -/
def pWsSkip (cs : List Char) : List Char :=
  cs.dropWhile fun c => c = ' ' || c = '\t' || c = '\n' || c = '\r'

/-- Value of a hexadecimal digit. -/
def hexVal (c : Char) : Option Nat :=
  if '0' ≤ c ∧ c ≤ '9' then some (c.toNat - 48)
  else if 'a' ≤ c ∧ c ≤ 'f' then some (c.toNat - 87)
  else if 'A' ≤ c ∧ c ≤ 'F' then some (c.toNat - 55)
  else none

/-- Parses the remainder of a JSON string literal (after the opening
quote), handling escapes; returns the decoded characters and the rest of
the input. -/
def pStr : List Char → Option (List Char × List Char)
  | [] => none
  | c :: rest =>
    if c = '"' then some ([], rest)
    else if c = '\\' then
      match rest with
      | [] => none
      | e :: rest2 =>
        if e = 'u' then
          match rest2 with
          | a :: b :: c2 :: d :: rest3 => do
            let ha ← hexVal a
            let hb ← hexVal b
            let hc ← hexVal c2
            let hd ← hexVal d
            let (s, r) ← pStr rest3
            pure (Char.ofNat (((ha * 16 + hb) * 16 + hc) * 16 + hd) :: s, r)
          | _ => none
        else do
          let ch ←
            if e = '"' then some '"'
            else if e = '\\' then some '\\'
            else if e = '/' then some '/'
            else if e = 'b' then some '\x08'
            else if e = 'f' then some '\x0c'
            else if e = 'n' then some '\n'
            else if e = 'r' then some '\r'
            else if e = 't' then some '\t'
            else none
          let (s, r) ← pStr rest2
          pure (ch :: s, r)
    else if c.toNat < 32 then none
    else (pStr rest).map fun p => (c :: p.1, p.2)

/-- Reads a maximal run of decimal digits, returning its value, its
length, and the rest of the input. -/
def pDigits : List Char → Nat → Nat → Nat × Nat × List Char
  | [], acc, n => (acc, n, [])
  | c :: rest, acc, n =>
    if c.isDigit then pDigits rest (acc * 10 + (c.toNat - 48)) (n + 1)
    else (acc, n, c :: rest)

/-- Parses an optional JSON fraction part. -/
def pFrac : List Char → Option (Nat × Nat × List Char)
  | '.' :: r =>
    let (f, n, r2) := pDigits r 0 0
    if n = 0 then none else some (f, n, r2)
  | cs => some (0, 0, cs)

/-- Parses an optional JSON exponent part. -/
def pExp : List Char → Option (Int × List Char)
  | [] => some (0, [])
  | c :: r =>
    if c = 'e' ∨ c = 'E' then
      let (sgn, r1) : Int × List Char :=
        match r with
        | '+' :: r2 => (1, r2)
        | '-' :: r2 => (-1, r2)
        | _ => (1, r)
      let (e, n, r2) := pDigits r1 0 0
      if n = 0 then none else some (sgn * e, r2)
    else some (0, c :: r)

/-- Parses a JSON number (`-?(0|[1-9][0-9]*)(\.[0-9]+)?([eE][+-]?[0-9]+)?`)
into a rational. -/
def pNumber (cs : List Char) : Option (ℚ × List Char) :=
  let (neg, cs1) : Bool × List Char :=
    match cs with
    | '-' :: r => (true, r)
    | _ => (false, cs)
  match cs1 with
  | [] => none
  | c :: _ =>
    if !c.isDigit then none
    else
      let (ip, icnt, cs2) := pDigits cs1 0 0
      if icnt = 0 ∨ (1 < icnt ∧ c = '0') then none
      else do
        let (fnum, fcnt, cs3) ← pFrac cs2
        let (e, cs4) ← pExp cs3
        let mag : ℚ := ((ip : ℚ) + (fnum : ℚ) / ((10 : ℚ) ^ fcnt)) * (10 : ℚ) ^ e
        pure (if neg then -mag else mag, cs4)

mutual

/-- Fuel-indexed recursive-descent parser for one JSON value. -/
def pVal : Nat → List Char → Option (JVal × List Char)
  | 0, _ => none
  | fuel + 1, cs0 =>
    match pWsSkip cs0 with
    | [] => none
    | '"' :: rest => (pStr rest).map fun p => (.jstr ⟨p.1⟩, p.2)
    | '{' :: rest =>
      match pWsSkip rest with
      | '}' :: r2 => some (.jobj [], r2)
      | _ => (pMembers fuel rest).map fun p => (.jobj p.1, p.2)
    | '[' :: rest =>
      match pWsSkip rest with
      | ']' :: r2 => some (.jarr [], r2)
      | _ => (pElems fuel rest).map fun p => (.jarr p.1, p.2)
    | 't' :: 'r' :: 'u' :: 'e' :: r => some (.jbool true, r)
    | 'f' :: 'a' :: 'l' :: 's' :: 'e' :: r => some (.jbool false, r)
    | 'n' :: 'u' :: 'l' :: 'l' :: r => some (.jnull, r)
    | cs => (pNumber cs).map fun p => (.jnum p.1, p.2)

/-- Parses the members of a JSON object after the opening brace. -/
def pMembers : Nat → List Char → Option (List (String × JVal) × List Char)
  | 0, _ => none
  | fuel + 1, cs =>
    match pWsSkip cs with
    | '"' :: rest => do
      let (k, r1) ← pStr rest
      match pWsSkip r1 with
      | ':' :: r2 => do
        let (v, r3) ← pVal fuel r2
        match pWsSkip r3 with
        | ',' :: r4 => do
          let (ms, r5) ← pMembers fuel r4
          pure ((⟨k⟩, v) :: ms, r5)
        | '}' :: r4 => pure ([(⟨k⟩, v)], r4)
        | _ => none
      | _ => none
    | _ => none

/-- Parses the elements of a JSON array after the opening bracket. -/
def pElems : Nat → List Char → Option (List JVal × List Char)
  | 0, _ => none
  | fuel + 1, cs => do
    let (v, r1) ← pVal fuel cs
    match pWsSkip r1 with
    | ',' :: r2 => do
      let (vs, r3) ← pElems fuel r2
      pure (v :: vs, r3)
    | ']' :: r2 => pure ([v], r2)
    | _ => none

end

/-- Model of `JSON.parse`: parses the whole input as one JSON value with
nothing but whitespace after it. -/
def jparse (s : String) : Option JVal :=
  let cs := s.data
  match pVal (2 * cs.length + 2) cs with
  | some (v, rest) => if pWsSkip rest = [] then some v else none
  | none => none

/-- The greedy regex match `rawJson.match(/\x7b[\s\S]*\x7d/)` on character
lists: the span from the first opening brace to the last closing brace,
when the latter comes after the former; otherwise (no match) the raw
input. -/
def extractJsonL (cs : List Char) : List Char :=
  match cs.findIdx? (· = '{') with
  | none => cs
  | some i =>
    match cs.reverse.findIdx? (· = '}') with
    | none => cs
    | some jr =>
      let j := cs.length - 1 - jr
      if i < j then (cs.drop i).take (j - i + 1) else cs

/-- String-level JSON extraction used by the validator. -/
def extractJson (raw : String) : String := ⟨extractJsonL raw.data⟩

/-- JavaScript object member lookup (a later duplicate key wins). -/
def jlookup (key : String) (l : List (String × JVal)) : Option JVal :=
  (l.reverse.find? fun p => p.1 = key).map Prod.snd

/-- Field access on the parsed value: property access on `null` throws a
`TypeError`; on any non-object value every named field is `undefined`. -/
def toRawData : JVal → Except String RawData
  | .jnull => .error "TypeError"
  | .jobj fields =>
    .ok
      { summary := jlookup "summary" fields
        recommendation := jlookup "recommendation" fields
        humanError := jlookup "humanError" fields
        testRootCause := jlookup "testRootCause" fields
        productRootCause := jlookup "productRootCause" fields
        bugEffect := jlookup "bugEffect" fields
        inferredExpected := jlookup "inferredExpected" fields
        severity := jlookup "severity" fields
        confidence := jlookup "confidence" fields
        tags := jlookup "tags" fields }
  | _ => .ok {}

/-- Post-parse stage of `validateAndSanitize`. -/
def validateData (v : JVal) (t : Test) : Except String Insight :=
  match toRawData v with
  | .error e => .error e
  | .ok d => validateFields d t

/-- The source's `validateAndSanitize(rawJson, originalTest)`: extract the
brace-delimited span (or fall back to the raw text), parse it as JSON —
failing with "Malformed JSON response" when the parse fails — then repair
or reject the fields. -/
def validateAndSanitize (raw : String) (t : Test) : Except String Insight :=
  match jparse (extractJson raw) with
  | none => .error "Malformed JSON response"
  | some v => validateData v t

/-- The fixed model priority list (`CONFIG.models`). -/
def CONFIG_models : List String :=
  ["meta-llama/Meta-Llama-3-8B-Instruct",
   "mistralai/Mixtral-8x7B-Instruct-v0.1",
   "microsoft/Phi-3-mini-4k-instruct"]

/-- One model attempt inside `getAiInsight`: the provider's chat
completion either yields no content (network error, timeout, empty
response — modelled as `none`) or a raw text that is validated and
sanitized. -/
def attemptModel (resp : String → Option String) (t : Test) (m : String) :
    Except String Insight :=
  match resp m with
  | none => .error "Empty response"
  | some content => validateAndSanitize content t

/-- Stamps the model identifier onto a validated insight
(`enriched.modelUsed = model`). -/
def stampModel (i : Insight) (m : String) : Insight := { i with modelUsed := some m }

/-- The fallback loop of `getAiInsight`: try each model in order, return
at the first success (stamped with that model), continue past any failure,
and fail once the list is exhausted.  The second component records which
models were attempted (i.e. which provider requests were issued). -/
def tryModels (resp : String → Option String) (t : Test) :
    List String → Except String Insight × List String
  | [] => (.error "All AI models failed", [])
  | m :: rest =>
    match attemptModel resp t m with
    | .ok i => (.ok (stampModel i m), [m])
    | .error _ =>
      let r := tryModels resp t rest
      (r.1, m :: r.2)

/-- The source's `getAiInsight`: fail immediately when the provider
credential is missing (`if (!hf) throw new Error("API Key missing")`),
otherwise run the model priority list. -/
def getAiInsight (hasKey : Bool) (resp : String → Option String) (t : Test) :
    Except String Insight × List String :=
  if hasKey then tryModels resp t CONFIG_models else (.error "API Key missing", [])

/-- The source's `getFallbackInsight`: the deterministic record attached
when AI is unavailable. -/
def getFallbackInsight (t : Test) : Insight :=
  let msg := (t.err.bind ErrInfo.message).getD ""
  { summary := some "AI analysis unavailable."
    recommendation :=
      some "Manual review required. Check the error logs and screenshot artifacts to diagnose the issue."
    severity := some "medium"
    confidence := some 0
    tags := some ((["ai-unavailable"] ++ deriveTags msg t.title).map JVal.jstr)
    modelUsed := none }

/-- Candidate predicate used by the orchestrator:
`(test.fail || test.state === 'failed') && !test.ai`. -/
def isFailed (t : Test) : Bool := t.fail || t.state == some "failed"

/-- A test is a candidate iff it failed and carries no prior annotation. -/
def isCandidate (t : Test) : Bool := isFailed t && t.ai.isNone

/-- A suite tree: a title, direct tests, and nested suites. -/
inductive Suite : Type where
  | mk : String → List Test → List Suite → Suite

/-- Per-test enrichment applied by the orchestrator's loop, with the
insight produced for a candidate given by the oracle `f` (covering both
the AI and the fallback path). -/
def enrichTest (f : Test → Insight) (t : Test) : Test :=
  if isCandidate t then { t with ai := some (f t) } else t

mutual

/-- Applies per-test enrichment throughout one suite tree. -/
def enrichSuite (f : Test → Insight) : Suite → Suite
  | .mk ti ts ss => .mk ti (ts.map (enrichTest f)) (enrichSuites f ss)

/-- Applies per-test enrichment throughout a forest of suites. -/
def enrichSuites (f : Test → Insight) : List Suite → List Suite
  | [] => []
  | s :: ss => enrichSuite f s :: enrichSuites f ss

end

mutual

/-- The source's `processSuite`: collect candidates from a suite's direct
tests, then recurse into its nested suites. -/
def collectSuite : Suite → List Test
  | .mk _ ts ss => ts.filter isCandidate ++ collectSuites ss

/-- Candidate collection over a forest of suites. -/
def collectSuites : List Suite → List Test
  | [] => []
  | s :: ss => collectSuite s ++ collectSuites ss

end

/-- A report artifact: statistics, the suite forest, opaque metadata. -/
structure Report where
  stats : JVal := .jnull
  results : List Suite
  meta : JVal := .jnull

/-- One orchestrator pass over a loaded report: enrich every candidate,
leaving all other data untouched. -/
def enrichReport (f : Test → Insight) (r : Report) : Report :=
  { r with results := enrichSuites f r.results }

/-- The orchestrator's candidate identification over a report. -/
def collectCandidates (r : Report) : List Test := collectSuites r.results

/-- The insight the orchestrator actually attaches to a candidate: the
first successful model's validated insight, or the fallback record when
`getAiInsight` throws (key missing, or every model failed). -/
def orchestrateInsight (hasKey : Bool) (resp : String → Option String) (t : Test) : Insight :=
  match (getAiInsight hasKey resp t).1 with
  | .ok i => i
  | .error _ => getFallbackInsight t

/-- The `stats` block of one report fragment; every counter is optional
(`data.stats.x || 0` treats an absent counter as zero). -/
structure StatsIn where
  suites : Option ℕ := none
  tests : Option ℕ := none
  passes : Option ℕ := none
  pending : Option ℕ := none
  failures : Option ℕ := none
  duration : Option ℚ := none
  testsRegistered : Option ℕ := none
  skipped : Option ℕ := none
  deriving DecidableEq

/-- One parsed report fragment, as consumed by the merge in
`renderHtmlReport.js`. -/
structure Fragment where
  stats : StatsIn := {}
  results : List Suite := []
  meta : JVal := .jnull

/-- The master statistics accumulated by `getResults`. -/
structure MasterStats where
  suites : ℕ := 0
  tests : ℕ := 0
  passes : ℕ := 0
  pending : ℕ := 0
  failures : ℕ := 0
  duration : ℚ := 0
  testsRegistered : ℕ := 0
  skipped : ℕ := 0
  passPercent : ℚ := 0
  pendingPercent : ℚ := 0
  other : ℕ := 0
  hasOther : Bool := false
  hasSkipped : Bool := false
  deriving DecidableEq

/-- Adds one fragment's additive counters into the master statistics. -/
def addFragment (m : MasterStats) (f : Fragment) : MasterStats :=
  { m with
    suites := m.suites + f.stats.suites.getD 0
    tests := m.tests + f.stats.tests.getD 0
    passes := m.passes + f.stats.passes.getD 0
    pending := m.pending + f.stats.pending.getD 0
    failures := m.failures + f.stats.failures.getD 0
    duration := m.duration + f.stats.duration.getD 0
    testsRegistered := m.testsRegistered + f.stats.testsRegistered.getD 0
    skipped := m.skipped + f.stats.skipped.getD 0 }

/-- The statistics part of `getResults`: sum every additive counter over
the fragments, then recompute the percentages from the merged counters,
leaving them at 0 when `testsRegistered = 0`. -/
def mergeStats (frags : List Fragment) : MasterStats :=
  let m := frags.foldl addFragment {}
  if 0 < m.testsRegistered then
    { m with
      passPercent := (m.passes : ℚ) / (m.testsRegistered : ℚ) * 100
      pendingPercent := (m.pending : ℚ) / (m.testsRegistered : ℚ) * 100 }
  else m

/-- The whole merge of `getResults`: merged statistics, concatenated
`results` in discovery order, and the last fragment's `meta`. -/
def getResults (frags : List Fragment) : Report :=
  { stats := .jnull
    results := (frags.map Fragment.results).flatten
    meta := ((frags.map Fragment.meta).getLast? ).getD .jnull }

/-- What the rename step can recover from one fragment file: `none` when
`JSON.parse` throws, otherwise the first result entry's `file`,
`fullFile` and `title` fields (absent entries yield an all-`none`
record). -/
structure SpecSrc where
  file : Option String := none
  fullFile : Option String := none
  title : Option String := none
  deriving DecidableEq

/-- The content of one fragment file as far as renaming is concerned. -/
abbrev Content := Option SpecSrc

/-- The sanitization `specName.replace(/[^a-z0-9]/gi, '_').toLowerCase()`. -/
def sanitizeName (s : String) : String :=
  lowerStr ⟨s.data.map fun c => if c.isAlphanum then c else '_'⟩

/-- Model of `path.basename` on the forward-slash paths the pipeline
produces. -/
def basenameStr (s : String) : String :=
  let t : List Char := (s.data.reverse.dropWhile (· = '/')).reverse
  ⟨((splitChar '/' t).getLast?).getD t⟩

/-- The extension strip `basename.replace(/\.cy\.js$|\.js$/, '')`. -/
def stripSpecExt (s : String) : String :=
  if endsWithL s.data ['.', 'c', 'y', '.', 'j', 's'] then strDropRight s 6
  else if endsWithL s.data ['.', 'j', 's'] then strDropRight s 3
  else s

/-- Derives the stable spec name from a fragment file's content; `none`
when the file could not be parsed (the source catches and skips). -/
def deriveSpecName (c : Content) : Option String :=
  match c with
  | none => none
  | some src =>
    let specFile := jsOrStr src.file (jsOrStr src.fullFile "")
    some (sanitizeName
      (if specFile = "" then jsOrStr src.title "unknown"
       else stripSpecExt (basenameStr specFile)))

/-- Whether a file name triggers the rename step
(`fileName.startsWith("results_") || fileName === "results.json"`). -/
def triggersRename (name : String) : Bool :=
  startsWithL ['r', 'e', 's', 'u', 'l', 't', 's', '_'] name.data || name == "results.json"

/-- A directory in listing order: file names with their contents. -/
abbrev Dir := List (String × Content)

/-- The file names of a directory. -/
def dirNames (d : Dir) : List String := d.map Prod.fst

/-- Content of the named file, when present. -/
def dirLookup (d : Dir) (n : String) : Option Content :=
  (d.find? fun p => p.1 = n).map Prod.snd

/-- `fs.renameSync`: moves the named file to the new name in place. -/
def dirRename (d : Dir) (old new : String) : Dir :=
  d.map fun p => if p.1 = old then (new, p.2) else p

/-- Processing of one globbed file inside the rename loop: derive the
target `<specName>_results.json` and rename, unless the file keeps its
own name, the destination already exists, or parsing failed. -/
def renameStep (d : Dir) (n : String) : Dir :=
  if triggersRename n then
    match dirLookup d n with
    | none => d
    | some c =>
      match deriveSpecName c with
      | none => d
      | some s =>
        if n ≠ s ++ "_results.json" ∧ ¬(s ++ "_results.json") ∈ dirNames d then
          dirRename d n (s ++ "_results.json")
        else d
  else d

/-- The whole rename pass of `runPipeline`: iterate over the snapshot of
globbed file names, renaming against the evolving directory. -/
def renamePass (d : Dir) : Dir := (dirNames d).foldl renameStep d

/-- Fragment with `tests:5, passes:5` (and, as in every mochawesome
fragment, `testsRegistered` mirroring `tests`). -/
def fragFivePasses : Fragment :=
  { stats := { tests := some 5, passes := some 5, testsRegistered := some 5 } }

/-- Fragment with `tests:3, passes:1` (`testsRegistered` mirroring
`tests`). -/
def fragOnePass : Fragment :=
  { stats := { tests := some 3, passes := some 1, testsRegistered := some 3 } }

/-- The spec's scenario test: a failing test titled "[auth] login
redirects" whose error message is "Timed out retrying after 4000ms". -/
def authScenarioTest : Test :=
  { title := "[auth] login redirects"
    fullTitle := some "[auth] login redirects"
    state := some "failed"
    err := some { message := some "Timed out retrying after 4000ms" } }

/-- A provider oracle on which every request fails to produce content. -/
def respAllFail : String → Option String := fun _ => none

/-- A provider oracle: the first model yields no content, the second
yields a bare JSON object, the third is never reached. -/
def respSecondOk : String → Option String := fun m =>
  if m = "mistralai/Mixtral-8x7B-Instruct-v0.1" then some "\x7b\x7d" else none

/-- A failing test with an error message matching no tag bucket. -/
def plainFailingTest : Test :=
  { title := "abc"
    state := some "failed"
    err := some { message := some "xyz" } }

/-- Raw model response containing two balanced JSON objects separated by
commentary; the greedy extraction spans both and fails to parse. -/
def rawTwoObjects : String := "\x7b\x22a\x22:1\x7d and \x7b\x22b\x22:2\x7d"

/-- The first of the two balanced JSON objects inside `rawTwoObjects`. -/
def rawFirstObject : String := "\x7b\x22a\x22:1\x7d"

/-- Content of a fragment whose first result entry originates from spec
file `results.cy.js`, so its derived name is `results`. -/
def contentResultsSpec : Content := some { file := some "results.cy.js" }

/-- Content of a fragment originating from spec file `other.cy.js`. -/
def contentOtherSpec : Content := some { file := some "other.cy.js" }

/-- A directory on which the rename pass is not idempotent: the first
file's target name is occupied by the second file, which is itself
renamed away later in the same pass. -/
def dirShadowed : Dir :=
  [("results_a.json", contentResultsSpec),
   ("results_results.json", contentOtherSpec)]

/-- Whether an attempt succeeded. -/
def isOkE : Except String Insight → Bool
  | .ok _ => true
  | .error _ => false

/-- The insight produced by the validator for the empty object response
`\x7b\x7d` against `plainFailingTest` (all documented defaults; the tag
derivation finds no keyword, so `tags` is empty). -/
def insightAllDefaults : Insight :=
  { summary := some "Investigate failure reason."
    humanError := some (.jstr "An error occurred during the test execution.")
    testRootCause := some (.jstr "Assertion or selector failure detected in test code.")
    productRootCause := some (.jstr "Possible defect in application logic or responsiveness.")
    bugEffect := some (.jstr "User flow is blocked or behavior is inconsistent.")
    inferredExpected :=
      some (.jstr "The application should behave as defined in the test requirement.")
    recommendation := some padSentence
    severity := some "medium"
    confidence := some ((1 : ℚ) / 2)
    tags := some []
    modelUsed := none }

/-- A parsed response whose `confidence` field is the number 9/10. -/
def rdConf : RawData := { confidence := some (.jnum ((9 : ℚ) / 10)) }

/-- The validator's output on `rdConf` against `plainFailingTest`. -/
def insightConf : Insight :=
  { insightAllDefaults with confidence := some (min (max ((9 : ℚ) / 10) 0) 1) }

/-- A parsed response whose `severity` field is the number 1. -/
def rdSevNum : RawData := { severity := some (.jnum 1) }

/-- A parsed response whose `severity` field is the string "HIGH". -/
def rdSevHigh : RawData := { severity := some (.jstr "HIGH") }

/-- The validator's output on `rdSevHigh` against `plainFailingTest`. -/
def insightSevHigh : Insight := { insightAllDefaults with severity := some "high" }

/-- A one-suite report containing exactly the plain failing test. -/
def reportScenario : Report := { results := [Suite.mk "root" [plainFailingTest] []] }

/-! ## Theorems -/

theorem foldl_addFragment_eq : ∀ (frags : List Fragment) (m : MasterStats),
    frags.foldl addFragment m =
      { m with
        suites := m.suites + (frags.map fun fr => fr.stats.suites.getD 0).sum
        tests := m.tests + (frags.map fun fr => fr.stats.tests.getD 0).sum
        passes := m.passes + (frags.map fun fr => fr.stats.passes.getD 0).sum
        pending := m.pending + (frags.map fun fr => fr.stats.pending.getD 0).sum
        failures := m.failures + (frags.map fun fr => fr.stats.failures.getD 0).sum
        duration := m.duration + (frags.map fun fr => fr.stats.duration.getD 0).sum
        testsRegistered :=
          m.testsRegistered + (frags.map fun fr => fr.stats.testsRegistered.getD 0).sum
        skipped := m.skipped + (frags.map fun fr => fr.stats.skipped.getD 0).sum } := by
  intro frags
  induction frags with
  | nil => intro m; simp
  | cons f rest ih =>
    intro m
    rw [List.foldl_cons, ih]
    simp [addFragment, add_assoc]

/-- C1: the merged statistics are the field-wise sums of the fragments'
additive counters, with `passPercent` recomputed as
`passes / testsRegistered * 100` from the merged counters (0 when the
merged `testsRegistered` is 0); in particular the spec's two-fragment
scenario (with `testsRegistered` mirroring `tests`, as in every
mochawesome fragment) yields `tests = 8`, `passes = 6`,
`passPercent = 75`. -/
theorem merge_additivity_c1 :
    (∀ frags : List Fragment,
      (mergeStats frags).suites = (frags.map fun fr => fr.stats.suites.getD 0).sum ∧
      (mergeStats frags).tests = (frags.map fun fr => fr.stats.tests.getD 0).sum ∧
      (mergeStats frags).passes = (frags.map fun fr => fr.stats.passes.getD 0).sum ∧
      (mergeStats frags).pending = (frags.map fun fr => fr.stats.pending.getD 0).sum ∧
      (mergeStats frags).failures = (frags.map fun fr => fr.stats.failures.getD 0).sum ∧
      (mergeStats frags).duration = (frags.map fun fr => fr.stats.duration.getD 0).sum ∧
      (mergeStats frags).testsRegistered =
        (frags.map fun fr => fr.stats.testsRegistered.getD 0).sum ∧
      (mergeStats frags).skipped = (frags.map fun fr => fr.stats.skipped.getD 0).sum ∧
      (mergeStats frags).passPercent =
        (if 0 < (frags.map fun fr => fr.stats.testsRegistered.getD 0).sum then
          ((frags.map fun fr => fr.stats.passes.getD 0).sum : ℚ) /
            ((frags.map fun fr => fr.stats.testsRegistered.getD 0).sum : ℚ) * 100
        else 0)) ∧
    (mergeStats [fragFivePasses, fragOnePass]).tests = 8 ∧
    (mergeStats [fragFivePasses, fragOnePass]).passes = 6 ∧
    (mergeStats [fragFivePasses, fragOnePass]).passPercent = 75 := by
  refine ⟨?_, by decide, by decide, ?_⟩
  · intro frags
    unfold mergeStats
    rw [foldl_addFragment_eq]
    by_cases h : 0 < (frags.map fun fr => fr.stats.testsRegistered.getD 0).sum
    · simp [h, Function.comp_def]
    · simp [h]
  · norm_num [mergeStats, addFragment, fragFivePasses, fragOnePass]

theorem isCandidate_enrichTest (f : Test → Insight) (t : Test) :
    isCandidate (enrichTest f t) = false := by
  cases h : isCandidate t with
  | true =>
    simp only [enrichTest, h, if_true]
    simp [isCandidate]
  | false => simp [enrichTest, h]

theorem enrichTest_idem (f g : Test → Insight) (t : Test) :
    enrichTest g (enrichTest f t) = enrichTest f t := by
  have h := isCandidate_enrichTest f t
  generalize hu : enrichTest f t = u at h ⊢
  simp [enrichTest, h]

theorem map_enrichTest_idem (f g : Test → Insight) (ts : List Test) :
    (ts.map (enrichTest f)).map (enrichTest g) = ts.map (enrichTest f) := by
  induction ts with
  | nil => rfl
  | cons t ts ih => simp [ih, enrichTest_idem]

theorem filter_enrichTest (f : Test → Insight) (ts : List Test) :
    (ts.map (enrichTest f)).filter isCandidate = [] := by
  induction ts with
  | nil => rfl
  | cons t ts ih => simp [List.filter_cons, isCandidate_enrichTest, ih]

mutual

theorem enrichSuite_idem (f g : Test → Insight) : ∀ s : Suite,
    enrichSuite g (enrichSuite f s) = enrichSuite f s
  | .mk ti ts ss => by
    simp only [enrichSuite]
    rw [map_enrichTest_idem, enrichSuites_idem f g ss]

theorem enrichSuites_idem (f g : Test → Insight) : ∀ ss : List Suite,
    enrichSuites g (enrichSuites f ss) = enrichSuites f ss
  | [] => rfl
  | s :: ss => by
    simp only [enrichSuites]
    rw [enrichSuite_idem f g s, enrichSuites_idem f g ss]

end

mutual

theorem collectSuite_enrich (f : Test → Insight) : ∀ s : Suite,
    collectSuite (enrichSuite f s) = []
  | .mk ti ts ss => by
    simp only [enrichSuite, collectSuite]
    rw [filter_enrichTest, collectSuites_enrich f ss]
    rfl

theorem collectSuites_enrich (f : Test → Insight) : ∀ ss : List Suite,
    collectSuites (enrichSuites f ss) = []
  | [] => rfl
  | s :: ss => by
    simp only [enrichSuites, collectSuites]
    rw [collectSuite_enrich f s, collectSuites_enrich f ss]
    rfl

end

mutual

theorem mem_collectSuite (t : Test) : ∀ s : Suite, t ∈ collectSuite s → isCandidate t = true
  | .mk ti ts ss, h => by
    simp only [collectSuite] at h
    rcases List.mem_append.mp h with h1 | h2
    · exact (List.mem_filter.mp h1).2
    · exact mem_collectSuites t ss h2

theorem mem_collectSuites (t : Test) : ∀ ss : List Suite,
    t ∈ collectSuites ss → isCandidate t = true
  | s :: ss, h => by
    simp only [collectSuites] at h
    rcases List.mem_append.mp h with h1 | h2
    · exact mem_collectSuite t s h1
    · exact mem_collectSuites t ss h2

end

/-- C2: enrichment is idempotent per report.  A test is selected as a
candidate only when it failed and has no `ai` annotation; after one
orchestrator pass (whatever insights that pass attached) no candidate
remains, and a second pass — with any model behaviour whatsoever — leaves
the report unchanged. -/
theorem enrichment_idempotent_c2 :
    (∀ (f g : Test → Insight) (r : Report),
      enrichReport g (enrichReport f r) = enrichReport f r) ∧
    (∀ (f : Test → Insight) (r : Report), collectCandidates (enrichReport f r) = []) ∧
    (∀ (r : Report) (t : Test),
      t ∈ collectCandidates r → isFailed t = true ∧ t.ai = none) := by
  refine ⟨?_, ?_, ?_⟩
  · intro f g r
    simp [enrichReport, enrichSuites_idem]
  · intro f r
    simp [enrichReport, collectCandidates, collectSuites_enrich]
  · intro r t h
    have hc := mem_collectSuites t r.results h
    rw [isCandidate, Bool.and_eq_true] at hc
    exact ⟨hc.1, Option.isNone_iff_eq_none.mp hc.2⟩

/-- Witness for C2: the plain failing test is a candidate of the
one-suite scenario report, hence failed and unannotated. -/
theorem enrichment_idempotent_c2_witness :
    isFailed plainFailingTest = true ∧ plainFailingTest.ai = none :=
  enrichment_idempotent_c2.2.2 reportScenario plainFailingTest (by decide)

/-- C7: with no provider credential, every invocation of the inference
invoker fails immediately with the descriptive error "API Key missing"
and attempts no model (no provider request is issued). -/
theorem missing_key_fails_fast_c7 :
    ∀ (resp : String → Option String) (t : Test),
      getAiInsight false resp t = (.error "API Key missing", []) :=
  fun _ _ => rfl

theorem tryModels_all_fail (resp : String → Option String) (t : Test) :
    ∀ ms : List String, (∀ m ∈ ms, isOkE (attemptModel resp t m) = false) →
      tryModels resp t ms = (.error "All AI models failed", ms) := by
  intro ms
  induction ms with
  | nil => intro _; rfl
  | cons m rest ih =>
    intro h
    have hm := h m (List.mem_cons_self m rest)
    cases ha : attemptModel resp t m with
    | ok i => rw [ha] at hm; simp [isOkE] at hm
    | error e =>
      simp only [tryModels, ha]
      rw [ih fun m' hm' => h m' (List.mem_cons_of_mem m hm')]

theorem tryModels_first_success (resp : String → Option String) (t : Test) :
    ∀ (pre : List String) (m : String) (post : List String) (i : Insight),
      (∀ m' ∈ pre, isOkE (attemptModel resp t m') = false) →
      attemptModel resp t m = .ok i →
      tryModels resp t (pre ++ m :: post) = (.ok (stampModel i m), pre ++ [m]) := by
  intro pre
  induction pre with
  | nil =>
    intro m post i _ hm
    simp only [List.nil_append, tryModels, hm]
  | cons p pre ih =>
    intro m post i h hm
    have hp := h p (List.mem_cons_self p pre)
    cases ha : attemptModel resp t p with
    | ok j => rw [ha] at hp; simp [isOkE] at hp
    | error e =>
      have hrec := ih m post i (fun m' hm' => h m' (List.mem_cons_of_mem p hm')) hm
      simp only [List.cons_append, tryModels, ha, List.append_eq, hrec]

theorem tryModels_error_exhausted (resp : String → Option String) (t : Test) :
    ∀ (ms : List String) (e : String), (tryModels resp t ms).1 = .error e →
      e = "All AI models failed" ∧ ∀ m ∈ ms, isOkE (attemptModel resp t m) = false := by
  intro ms
  induction ms with
  | nil =>
    intro e h
    simp only [tryModels] at h
    cases h
    exact ⟨rfl, by intro m hm; cases hm⟩
  | cons m rest ih =>
    intro e h
    cases ha : attemptModel resp t m with
    | ok i =>
      simp only [tryModels, ha] at h
      exact Except.noConfusion h
    | error e2 =>
      simp only [tryModels, ha] at h
      obtain ⟨he, hall⟩ := ih e h
      refine ⟨he, ?_⟩
      intro m' hm'
      rcases List.mem_cons.mp hm' with h1 | h2
      · rw [h1, ha]; rfl
      · exact hall m' h2

/-- C5: the inference invoker runs the fixed priority list in order.  When
it holds a credential it is the list loop; given any decomposition of the
model list into failing models followed by the first validating model, it
returns that model's insight stamped with the model's identifier, having
attempted exactly the failing prefix plus the successful model; when every
model fails it attempts all of them and fails with "All AI models failed",
and it only ever fails that way when every model in the list failed. -/
theorem invoker_priority_order_c5 :
    (∀ (resp : String → Option String) (t : Test),
      getAiInsight true resp t = tryModels resp t CONFIG_models) ∧
    (∀ (resp : String → Option String) (t : Test) (pre : List String) (m : String)
        (post : List String) (i : Insight),
      (∀ m' ∈ pre, isOkE (attemptModel resp t m') = false) →
      attemptModel resp t m = .ok i →
      tryModels resp t (pre ++ m :: post) = (.ok (stampModel i m), pre ++ [m]) ∧
        (stampModel i m).modelUsed = some m) ∧
    (∀ (resp : String → Option String) (t : Test) (ms : List String),
      (∀ m ∈ ms, isOkE (attemptModel resp t m) = false) →
      tryModels resp t ms = (.error "All AI models failed", ms)) ∧
    (∀ (resp : String → Option String) (t : Test) (ms : List String) (e : String),
      (tryModels resp t ms).1 = .error e →
      e = "All AI models failed" ∧ ∀ m ∈ ms, isOkE (attemptModel resp t m) = false) := by
  refine ⟨fun _ _ => rfl, ?_, tryModels_all_fail, tryModels_error_exhausted⟩
  intro resp t pre m post i h hm
  exact ⟨tryModels_first_success resp t pre m post i h hm, rfl⟩

/-- Witness for C5: against the oracle whose first model yields no content
and whose second yields a bare JSON object, the invoker returns the
defaulted insight stamped with the second model, having attempted exactly
the first two models. -/
theorem invoker_priority_order_c5_witness :
    tryModels respSecondOk plainFailingTest CONFIG_models =
      (.ok (stampModel insightAllDefaults "mistralai/Mixtral-8x7B-Instruct-v0.1"),
        ["meta-llama/Meta-Llama-3-8B-Instruct", "mistralai/Mixtral-8x7B-Instruct-v0.1"]) :=
  (invoker_priority_order_c5.2.1 respSecondOk plainFailingTest
    ["meta-llama/Meta-Llama-3-8B-Instruct"] "mistralai/Mixtral-8x7B-Instruct-v0.1"
    ["microsoft/Phi-3-mini-4k-instruct"] insightAllDefaults
    (by intro m' hm'; rw [List.mem_singleton] at hm'; subst hm'; rfl)
    (by rfl)).1

/-- Counterexample for C4: for the spec's scenario test (title "[auth]
login redirects", error "Timed out retrying after 4000ms") with no
credential, the orchestrator's fallback record carries the tags
"ai-unavailable" and "auth" only — "timing" is absent, because the error
text contains neither of the substrings "timeout" and "waited". -/
theorem fallback_guarantee_c4_counterexample :
    (orchestrateInsight false respAllFail authScenarioTest).tags =
      some [JVal.jstr "ai-unavailable", JVal.jstr "auth"] ∧
    ¬ JVal.jstr "timing" ∈ [JVal.jstr "ai-unavailable", JVal.jstr "auth"] := by
  decide

/-- C4 (amended): whenever `getAiInsight` fails — in particular with no
credential, or when every configured model fails — the orchestrator
attaches the non-null fallback record, whose `confidence` is 0.0 and
`severity` is "medium" and whose tags always include "ai-unavailable";
for the scenario test the full tag list is ["ai-unavailable", "auth"]
("timing" is derived only from the substrings "timeout"/"waited", which
the scenario's error text lacks). -/
theorem fallback_guarantee_c4_amended :
    (∀ (resp : String → Option String) (t : Test), isCandidate t = true →
      (enrichTest (orchestrateInsight false resp) t).ai = some (getFallbackInsight t)) ∧
    (∀ (resp : String → Option String) (t : Test),
      (∀ m ∈ CONFIG_models, isOkE (attemptModel resp t m) = false) →
      orchestrateInsight true resp t = getFallbackInsight t) ∧
    (∀ t : Test,
      (getFallbackInsight t).confidence = some 0 ∧
      (getFallbackInsight t).severity = some "medium" ∧
      ∃ l, (getFallbackInsight t).tags = some l ∧ JVal.jstr "ai-unavailable" ∈ l) ∧
    (getFallbackInsight authScenarioTest).tags =
      some [JVal.jstr "ai-unavailable", JVal.jstr "auth"] := by
  refine ⟨?_, ?_, ?_, by decide⟩
  · intro resp t h
    simp [enrichTest, h, orchestrateInsight, getAiInsight]
  · intro resp t h
    rw [orchestrateInsight, getAiInsight]
    simp only [if_true]
    rw [tryModels_all_fail resp t CONFIG_models h]
  · intro t
    refine ⟨rfl, rfl, _, rfl, ?_⟩
    simp [getFallbackInsight]

/-- Witness for C4: applying the amended theorem to the scenario test with
the all-failing oracle, both with no credential and with every model
failing. -/
theorem fallback_guarantee_c4_witness :
    (enrichTest (orchestrateInsight false respAllFail) authScenarioTest).ai =
        some (getFallbackInsight authScenarioTest) ∧
    orchestrateInsight true respAllFail authScenarioTest =
        getFallbackInsight authScenarioTest :=
  ⟨fallback_guarantee_c4_amended.1 respAllFail authScenarioTest (by decide),
   fallback_guarantee_c4_amended.2.1 respAllFail authScenarioTest
     (by intro m hm; fin_cases hm <;> rfl)⟩

theorem dirRename_snd (d : Dir) (old new : String) :
    (dirRename d old new).map Prod.snd = d.map Prod.snd := by
  induction d with
  | nil => rfl
  | cons p d ih =>
    simp only [dirRename, List.map_cons] at ih ⊢
    by_cases h : p.1 = old <;> simp [h, ih]

theorem dirRename_names (d : Dir) (old new : String) :
    dirNames (dirRename d old new) = (dirNames d).map fun k => if k = old then new else k := by
  induction d with
  | nil => rfl
  | cons p d ih =>
    simp only [dirRename, dirNames, List.map_cons] at ih ⊢
    by_cases h : p.1 = old <;> simp [h, ih]

theorem nodup_rename (l : List String) (old new : String) (h : l.Nodup) (hn : ¬ new ∈ l) :
    (l.map fun k => if k = old then new else k).Nodup := by
  induction l with
  | nil => simp
  | cons a l ih =>
    rw [List.nodup_cons] at h
    rw [List.mem_cons] at hn
    push_neg at hn
    rw [List.map_cons, List.nodup_cons]
    refine ⟨?_, ih h.2 hn.2⟩
    intro hmem
    rw [List.mem_map] at hmem
    obtain ⟨k, hk, hke⟩ := hmem
    by_cases hko : k = old <;> by_cases hao : a = old <;> simp [hko, hao] at hke
    · apply h.1
      rw [hao, ← hko]
      exact hk
    · exact hn.1 hke
    · apply hn.2
      rw [← hke]
      exact hk
    · apply h.1
      rw [← hke]
      exact hk

theorem renameStep_snd (d : Dir) (n : String) :
    (renameStep d n).map Prod.snd = d.map Prod.snd := by
  unfold renameStep
  repeat' split
  all_goals first
    | rfl
    | exact dirRename_snd _ _ _

theorem renameStep_nodup (d : Dir) (n : String) (h : (dirNames d).Nodup) :
    (dirNames (renameStep d n)).Nodup := by
  unfold renameStep
  split
  · split
    · exact h
    · split
      · exact h
      · split
        · next hcond =>
            rw [dirRename_names]
            exact nodup_rename _ _ _ h hcond.2
        · exact h
  · exact h

theorem foldl_renameStep_snd : ∀ (ns : List String) (d : Dir),
    ((ns.foldl renameStep d).map Prod.snd) = d.map Prod.snd
  | [], _ => rfl
  | n :: ns, d => by
    rw [List.foldl_cons, foldl_renameStep_snd ns, renameStep_snd]

theorem foldl_renameStep_nodup : ∀ (ns : List String) (d : Dir),
    (dirNames d).Nodup → (dirNames (ns.foldl renameStep d)).Nodup
  | [], _, h => h
  | n :: ns, d, h => by
    rw [List.foldl_cons]
    exact foldl_renameStep_nodup ns _ (renameStep_nodup d n h)

/-- Counterexample for C9: on the two-file directory `dirShadowed` the
first file's rename is skipped because its destination is occupied by the
second file, which is itself renamed away later in the same pass — so a
second pass performs the deferred rename and the final file names differ
from a single pass. -/
theorem rename_idempotent_c9_counterexample :
    renamePass (renamePass dirShadowed) ≠ renamePass dirShadowed := by decide

/-- C9 (amended): the rename step never overwrites an existing file — a
rename to `<derivedName>_results.json` is skipped whenever the destination
name is already present, every pass preserves the files' contents exactly
and keeps distinct names distinct — but a single pass is not idempotent in
general, because a skipped rename's blocking destination can itself be
renamed away later in the same pass (see the counterexample). -/
theorem rename_no_overwrite_c9_amended :
    (∀ d : Dir, (renamePass d).map Prod.snd = d.map Prod.snd) ∧
    (∀ d : Dir, (dirNames d).Nodup → (dirNames (renamePass d)).Nodup) ∧
    (∀ (d : Dir) (n : String) (c : Content) (s : String),
      triggersRename n = true → dirLookup d n = some c → deriveSpecName c = some s →
      (s ++ "_results.json") ∈ dirNames d → renameStep d n = d) := by
  refine ⟨fun d => foldl_renameStep_snd _ _, fun d h => foldl_renameStep_nodup _ _ h, ?_⟩
  intro d n c s ht hl hd hmem
  simp only [renameStep, ht, hl, hd, if_true]
  rw [if_neg fun hc => hc.2 hmem]

/-- Witness for C9: the shadowed directory has distinct names after a
pass, and its first file's rename is skipped because the destination
exists. -/
theorem rename_no_overwrite_c9_witness :
    (dirNames (renamePass dirShadowed)).Nodup ∧
    renameStep dirShadowed "results_a.json" = dirShadowed :=
  ⟨rename_no_overwrite_c9_amended.2.1 dirShadowed (by decide),
   rename_no_overwrite_c9_amended.2.2 dirShadowed "results_a.json" contentResultsSpec
     "results" (by decide) (by decide) (by decide) (by decide)⟩

theorem validateFields_ok_shape (d : RawData) (t : Test) (i : Insight)
    (h : validateFields d t = .ok i) :
    ∃ su re sev, summaryOf d.summary = .ok su ∧ recommendationOf d.recommendation = .ok re ∧
      severityE d.severity = .ok sev ∧
      i = { summary := some (if su = "" then "Investigate failure reason." else su)
            humanError := some (jvalOr d.humanError "An error occurred during the test execution.")
            testRootCause :=
              some (jvalOr d.testRootCause "Assertion or selector failure detected in test code.")
            productRootCause :=
              some (jvalOr d.productRootCause
                "Possible defect in application logic or responsiveness.")
            bugEffect := some (jvalOr d.bugEffect "User flow is blocked or behavior is inconsistent.")
            inferredExpected :=
              some (jvalOr d.inferredExpected
                "The application should behave as defined in the test requirement.")
            recommendation := some re
            severity := some sev
            confidence := some (confidenceOf d.confidence)
            tags := some (tagsOf d.tags (jsStringOrUndefined (t.err.bind ErrInfo.message)) t.title)
            modelUsed := none } := by
  cases hs : summaryOf d.summary with
  | error e1 =>
    simp only [validateFields, hs] at h
    exact Except.noConfusion h
  | ok su =>
    cases hr : recommendationOf d.recommendation with
    | error e2 =>
      simp only [validateFields, hs, hr] at h
      exact Except.noConfusion h
    | ok re =>
      cases hv : severityE d.severity with
      | error e3 =>
        simp only [validateFields, hs, hr, hv] at h
        exact Except.noConfusion h
      | ok sev =>
        simp only [validateFields, hs, hr, hv] at h
        cases h
        exact ⟨su, re, sev, rfl, rfl, rfl, rfl⟩

theorem jsTruthy_jvalOr (v : Option JVal) (dflt : String) (h : ¬dflt = "") :
    jsTruthy (jvalOr v dflt) = true := by
  cases v with
  | none => simp [jvalOr, jsTruthy, h]
  | some w =>
    cases hw : jsTruthy w with
    | true => simp [jvalOr, hw]
    | false =>
      simp only [jvalOr, hw, Bool.false_eq_true, if_false]
      simp [jsTruthy, h]

theorem recommendationOf_ok_ne (v : Option JVal) (r : String)
    (h : recommendationOf v = .ok r) : ¬r = "" := by
  cases hc : cleanTextE v with
  | error e =>
    simp only [recommendationOf, hc] at h
    exact Except.noConfusion h
  | ok r0 =>
    simp only [recommendationOf, hc] at h
    cases h
    intro he
    have hdata := congrArg String.data he
    unfold fixEllipsis at hdata
    split at hdata
    · rw [String.data_append] at hdata
      rcases List.append_eq_nil.mp hdata with ⟨_, h2⟩
      exact List.noConfusion h2
    · unfold padShort at hdata
      split at hdata
      · rw [String.data_append] at hdata
        rcases List.append_eq_nil.mp hdata with ⟨_, h2⟩
        revert h2
        decide
      · next hlen =>
        apply hlen
        have : r0.data = ([] : List Char) := hdata
        rw [this]
        decide

theorem severityE_ok_mem (v : Option JVal) (s : String) (h : severityE v = .ok s) :
    s ∈ severityList := by
  cases v with
  | none =>
    cases h
    decide
  | some w =>
    cases w with
    | jnull =>
      cases h
      decide
    | jstr x =>
      simp only [severityE] at h
      cases h
      split
      · assumption
      · decide
    | jnum q => exact Except.noConfusion h
    | jbool b => exact Except.noConfusion h
    | jarr l => exact Except.noConfusion h
    | jobj l => exact Except.noConfusion h

theorem severityE_ok_char (v : Option JVal) (s : String) (h : severityE v = .ok s) :
    s = severityDefaultOf v := by
  cases v with
  | none => cases h; rfl
  | some w =>
    cases w with
    | jnull => cases h; rfl
    | jstr x =>
      simp only [severityE] at h
      cases h
      rfl
    | jnum q => exact Except.noConfusion h
    | jbool b => exact Except.noConfusion h
    | jarr l => exact Except.noConfusion h
    | jobj l => exact Except.noConfusion h

theorem confidenceOf_mem (v : Option JVal) : 0 ≤ confidenceOf v ∧ confidenceOf v ≤ 1 := by
  cases v with
  | none => constructor <;> norm_num [confidenceOf]
  | some w =>
    cases w with
    | jnum q =>
      exact ⟨le_min (le_max_right q 0) zero_le_one, min_le_right _ 1⟩
    | jstr s => constructor <;> norm_num [confidenceOf]
    | jbool b => constructor <;> norm_num [confidenceOf]
    | jnull => constructor <;> norm_num [confidenceOf]
    | jarr l => constructor <;> norm_num [confidenceOf]
    | jobj l => constructor <;> norm_num [confidenceOf]

theorem confidenceOf_default (v : Option JVal) (h : ∀ q : ℚ, v ≠ some (JVal.jnum q)) :
    confidenceOf v = (1 : ℚ) / 2 := by
  cases v with
  | none => rfl
  | some w =>
    cases w with
    | jnum q => exact absurd rfl (h q)
    | jstr s => rfl
    | jbool b => rfl
    | jnull => rfl
    | jarr l => rfl
    | jobj l => rfl

/-- Counterexample for C3: the raw response consisting of a bare JSON
object parses, and the validator returns a record whose `tags` field is
the empty list (no model tags, no keyword match) and which carries no
`modelUsed` at all — so not every required field is present and
non-empty. -/
theorem validator_total_defaulting_c3_counterexample :
    validateAndSanitize "\x7b\x7d" plainFailingTest = .ok insightAllDefaults ∧
    insightAllDefaults.tags = some [] ∧ insightAllDefaults.modelUsed = none :=
  ⟨rfl, rfl, rfl⟩

/-- C3 (amended): whenever the validator returns (rather than throwing),
every required field except `modelUsed` and `tags` is present and
non-empty (absent or falsy fields replaced by the documented defaults,
severity in its closed set, confidence present in `[0,1]`); `tags` is
present but may be the empty list, and `modelUsed` is not set by the
validator — it is stamped later by the inference invoker. -/
theorem validator_total_defaulting_c3_amended :
    ∀ (d : RawData) (t : Test) (i : Insight), validateFields d t = .ok i →
      (∃ s, i.summary = some s ∧ ¬s = "") ∧
      (∃ v, i.humanError = some v ∧ jsTruthy v = true) ∧
      (∃ v, i.testRootCause = some v ∧ jsTruthy v = true) ∧
      (∃ v, i.productRootCause = some v ∧ jsTruthy v = true) ∧
      (∃ v, i.bugEffect = some v ∧ jsTruthy v = true) ∧
      (∃ v, i.inferredExpected = some v ∧ jsTruthy v = true) ∧
      (∃ s, i.recommendation = some s ∧ ¬s = "") ∧
      (∃ s, i.severity = some s ∧ s ∈ severityList) ∧
      (∃ q, i.confidence = some q ∧ 0 ≤ q ∧ q ≤ 1) ∧
      (∃ l, i.tags = some l) ∧
      i.modelUsed = none := by
  intro d t i h
  obtain ⟨su, re, sev, hs, hr, hv, hi⟩ := validateFields_ok_shape d t i h
  subst hi
  refine ⟨?_,
    ⟨_, rfl, jsTruthy_jvalOr _ _ (by decide)⟩,
    ⟨_, rfl, jsTruthy_jvalOr _ _ (by decide)⟩,
    ⟨_, rfl, jsTruthy_jvalOr _ _ (by decide)⟩,
    ⟨_, rfl, jsTruthy_jvalOr _ _ (by decide)⟩,
    ⟨_, rfl, jsTruthy_jvalOr _ _ (by decide)⟩,
    ⟨re, rfl, recommendationOf_ok_ne _ _ hr⟩,
    ⟨sev, rfl, severityE_ok_mem _ _ hv⟩,
    ⟨_, rfl, confidenceOf_mem _⟩,
    ⟨_, rfl⟩, rfl⟩
  by_cases hsu : su = ""
  · exact ⟨"Investigate failure reason.", by rw [if_pos hsu], by decide⟩
  · exact ⟨su, by rw [if_neg hsu], hsu⟩

/-- Witness for C3 (amended): on a response whose severity is the
recognized string "HIGH", the validator returns, and the returned summary
is present and non-empty. -/
theorem validator_total_defaulting_c3_witness :
    validateFields rdSevHigh plainFailingTest = .ok insightSevHigh ∧
    (∃ s, insightSevHigh.summary = some s ∧ ¬s = "") :=
  ⟨rfl, (validator_total_defaulting_c3_amended rdSevHigh plainFailingTest insightSevHigh rfl).1⟩

/-- C8: on every parsed response the validator accepts, the output
confidence is present and lies in `[0,1]`; a numeric confidence field is
clamped into `[0,1]` via `min(max(c,0),1)`, and a non-numeric or absent
field defaults to 0.5. -/
theorem confidence_clamped_c8 :
    ∀ (d : RawData) (t : Test) (i : Insight), validateFields d t = .ok i →
      (∃ q, i.confidence = some q ∧ 0 ≤ q ∧ q ≤ 1) ∧
      (∀ q : ℚ, d.confidence = some (.jnum q) → i.confidence = some (min (max q 0) 1)) ∧
      ((∀ q : ℚ, d.confidence ≠ some (.jnum q)) → i.confidence = some ((1 : ℚ) / 2)) := by
  intro d t i h
  obtain ⟨su, re, sev, hs, hr, hv, hi⟩ := validateFields_ok_shape d t i h
  subst hi
  refine ⟨⟨_, rfl, confidenceOf_mem _⟩, ?_, ?_⟩
  · intro q hq
    simp only [hq]
    rfl
  · intro hq
    rw [confidenceOf_default _ hq]

/-- Witness for C8: a response with numeric confidence 9/10 is accepted
and the resulting confidence is present and within bounds. -/
theorem confidence_clamped_c8_witness :
    validateFields rdConf plainFailingTest = .ok insightConf ∧
    (∃ q, insightConf.confidence = some q ∧ 0 ≤ q ∧ q ≤ 1) :=
  ⟨rfl, (confidence_clamped_c8 rdConf plainFailingTest insightConf rfl).1⟩

theorem cleanTextE_error (v : Option JVal) (e : String) (h : cleanTextE v = .error e) :
    e = "TypeError" := by
  cases v with
  | none => exact Except.noConfusion h
  | some w =>
    simp only [cleanTextE] at h
    split at h
    · split at h
      · exact Except.noConfusion h
      · cases h
        rfl
    · exact Except.noConfusion h

theorem summaryOf_error (v : Option JVal) (e : String) (h : summaryOf v = .error e) :
    e = "TypeError" := by
  cases hc : cleanTextE v with
  | ok a =>
    simp only [summaryOf, hc] at h
    exact Except.noConfusion h
  | error e2 =>
    simp only [summaryOf, hc] at h
    cases h
    exact cleanTextE_error v _ hc

theorem recommendationOf_error (v : Option JVal) (e : String)
    (h : recommendationOf v = .error e) : e = "TypeError" := by
  cases hc : cleanTextE v with
  | ok a =>
    simp only [recommendationOf, hc] at h
    exact Except.noConfusion h
  | error e2 =>
    simp only [recommendationOf, hc] at h
    cases h
    exact cleanTextE_error v _ hc

theorem severityE_error (v : Option JVal) (e : String) (h : severityE v = .error e) :
    e = "TypeError" := by
  cases v with
  | none => exact Except.noConfusion h
  | some w =>
    cases w with
    | jstr s =>
      simp only [severityE] at h
      exact Except.noConfusion h
    | jnull => exact Except.noConfusion h
    | jnum q => cases h; rfl
    | jbool b => cases h; rfl
    | jarr l => cases h; rfl
    | jobj l => cases h; rfl

theorem validateFields_error (d : RawData) (t : Test) (e : String)
    (h : validateFields d t = .error e) : e = "TypeError" := by
  cases hs : summaryOf d.summary with
  | error e1 =>
    simp only [validateFields, hs] at h
    cases h
    exact summaryOf_error _ _ hs
  | ok su =>
    cases hr : recommendationOf d.recommendation with
    | error e2 =>
      simp only [validateFields, hs, hr] at h
      cases h
      exact recommendationOf_error _ _ hr
    | ok re =>
      cases hv : severityE d.severity with
      | error e3 =>
        simp only [validateFields, hs, hr, hv] at h
        cases h
        exact severityE_error _ _ hv
      | ok sev =>
        simp only [validateFields, hs, hr, hv] at h
        exact Except.noConfusion h

theorem toRawData_error (v : JVal) (e : String) (h : toRawData v = .error e) :
    e = "TypeError" := by
  cases v with
  | jnull => cases h; rfl
  | jstr s => exact Except.noConfusion h
  | jnum q => exact Except.noConfusion h
  | jbool b => exact Except.noConfusion h
  | jarr l => exact Except.noConfusion h
  | jobj l => exact Except.noConfusion h

theorem validateData_error (v : JVal) (t : Test) (e : String)
    (h : validateData v t = .error e) : e = "TypeError" := by
  cases hd : toRawData v with
  | error e1 =>
    simp only [validateData, hd] at h
    cases h
    exact toRawData_error _ _ hd
  | ok d =>
    simp only [validateData, hd] at h
    exact validateFields_error _ _ _ h

/-- C10: whenever the parsed response's severity holds a value that is
neither a string nor null (a number, boolean, array or object), the
validator throws a `TypeError` instead of returning an insight; and
whenever it does return, the severity is the lowercased recognized string
or the default "medium" — so "medium" is the default exactly when
severity is absent, null, or an unrecognized string. -/
theorem severity_type_guard_c10 :
    (∀ (d : RawData) (t : Test) (v : JVal), d.severity = some v →
      (∀ s, v ≠ JVal.jstr s) → v ≠ JVal.jnull →
      validateFields d t = .error "TypeError") ∧
    (∀ (d : RawData) (t : Test) (i : Insight), validateFields d t = .ok i →
      i.severity = some (severityDefaultOf d.severity)) := by
  constructor
  · intro d t v hd hstr hnull
    have hsev : severityE d.severity = .error "TypeError" := by
      rw [hd]
      cases v with
      | jstr s => exact absurd rfl (hstr s)
      | jnull => exact absurd rfl hnull
      | jnum q => rfl
      | jbool b2 => rfl
      | jarr l => rfl
      | jobj l => rfl
    cases hres : validateFields d t with
    | ok i =>
      obtain ⟨su, re, sev, hs, hr, hv, hi⟩ := validateFields_ok_shape d t i hres
      rw [hv] at hsev
      exact Except.noConfusion hsev
    | error e =>
      rw [validateFields_error d t e hres]
  · intro d t i h
    obtain ⟨su, re, sev, hs, hr, hv, hi⟩ := validateFields_ok_shape d t i h
    subst hi
    simp only []
    rw [severityE_ok_char _ _ hv]

/-- Witness for C10: a numeric severity makes the validator throw a
`TypeError` (whatever the other fields hold), while the recognized string
"HIGH" is lowercased to "high". -/
theorem severity_type_guard_c10_witness :
    validateFields rdSevNum plainFailingTest = .error "TypeError" ∧
    insightSevHigh.severity = some "high" :=
  ⟨severity_type_guard_c10.1 rdSevNum plainFailingTest (.jnum 1) rfl
      (fun _ h => JVal.noConfusion h) (fun h => JVal.noConfusion h),
   severity_type_guard_c10.2 rdSevHigh plainFailingTest insightSevHigh rfl⟩

/-- C6 (amended): the validator's extraction is the greedy span from the
first opening brace to the last closing brace (falling back to the raw
text), and it throws "Malformed JSON response" exactly when JSON-parsing
that extract fails — which can happen even when a balanced JSON object
substring is present (see the counterexample); every other throw is a
`TypeError` from the field repairs. -/
theorem malformed_response_c6_amended :
    ∀ (raw : String) (t : Test),
      validateAndSanitize raw t = .error "Malformed JSON response" ↔
        jparse (extractJson raw) = none := by
  intro raw t
  constructor
  · intro h
    cases hp : jparse (extractJson raw) with
    | none => rfl
    | some v =>
      simp only [validateAndSanitize, hp] at h
      have he := validateData_error v t _ h
      exact absurd he (by decide)
  · intro h
    simp only [validateAndSanitize, h]

/-- Counterexample for C6: on a response holding two JSON objects
separated by commentary, the greedy extraction keeps the whole span from
the first brace to the last, the parse fails and the validator throws
"Malformed JSON response", even though a valid JSON object substring is
recoverable from the response. -/
theorem malformed_response_c6_counterexample :
    validateAndSanitize rawTwoObjects plainFailingTest = .error "Malformed JSON response" ∧
    extractJson rawTwoObjects = rawTwoObjects ∧
    containsSub rawTwoObjects rawFirstObject = true ∧
    (∃ ms, jparse rawFirstObject = some (JVal.jobj ms)) :=
  ⟨rfl, rfl, rfl, ⟨_, rfl⟩⟩
